import Mathlib

/-!
Verification of the generation job lifecycle of the image-composer backend.

The definitions below are a shallow embedding of the TypeScript source:
* `handleKieCallback` embeds `src/backend/src/jobs/generationWorker.ts`
  (the Callback Reconciler);
* `markProcessing` / `submitTask` / `persistTaskIds` / `workerStates` embed
  the submission phase of `processGenerationJob` in the same file;
* `resolutionMap` and `aspectRatioFromParams` embed
  `src/backend/src/lib/kieai.ts`;
* `kieWebhookHandler` embeds the `POST /webhooks/kieai` express route;
* `enqueueGeneration` embeds the BullMQ enqueue wrapper, with the queue's
  dedup-by-jobId insertion modelled from the Job Queue interface contract.

External effects (provider fetches, object-store uploads, clocks) are passed
in as explicit parameters; database tables are explicit lists.
-/

namespace ImageComposer

/-- Generation lifecycle status, as stored in the `status` column. -/
inductive GenStatus
  | queued
  | processing
  | completed
  | failed
deriving DecidableEq, Repr

/-- One row of the `Generation` table (the fields touched by the worker and
the reconciler). Timestamps are modelled as natural numbers. -/
structure Generation where
  id : String
  status : GenStatus
  kieTaskIds : List String
  variationsTotal : Nat
  variationsDone : Nat
  failureReason : Option String
  startedAt : Option Nat
  completedAt : Option Nat
deriving DecidableEq, Repr

/-- One row of the `GenerationOutput` table. -/
structure GenerationOutput where
  generationId : String
  kieTaskId : String
  storageKey : String
deriving DecidableEq, Repr

/-- One row of the append-only `JobLog` table (event name only). -/
structure JobLogEntry where
  generationId : String
  event : String
deriving DecidableEq, Repr

/-- The database state shared by the worker and the reconciler. -/
structure DB where
  generations : List Generation
  outputs : List GenerationOutput
  jobLogs : List JobLogEntry
deriving DecidableEq, Repr

/-- `prisma.generation.findUnique({ where: { id } })`. -/
def findGen (db : DB) (gid : String) : Option Generation :=
  db.generations.find? (fun g => g.id == gid)

/-- `prisma.generation.update({ where: { id } })`: apply `f` to the row with
the given id. -/
def updateGen (db : DB) (gid : String) (f : Generation → Generation) : DB :=
  { db with generations := db.generations.map (fun g => if g.id == gid then f g else g) }

/-- `resolutionMap` from `src/backend/src/lib/kieai.ts`. -/
def resolutionMap (res : String) : String :=
  if res == "2k" || res == "2K" then "2K"
  else if res == "8k" || res == "8K" then "4K"
  else "4K"

/-- The `{ framing?, view? }` argument of `aspectRatioFromParams`. -/
structure AspectParams where
  framing : Option String
  view : Option String
deriving DecidableEq, Repr

/-- `aspectRatioFromParams` from `src/backend/src/lib/kieai.ts`. -/
def aspectRatioFromParams (params : AspectParams) : String :=
  if params.framing == some "full-body" then "2:3"
  else if params.framing == some "waist-legs" then "3:4"
  else "2:3"

/-- Terminal provider task states handled by the reconciler. -/
inductive KieState
  | success
  | fail
deriving DecidableEq, Repr

/-- Outcome of fetching one result URL and uploading it to storage: either the
storage key that was written ("Output stored"), or a logged-and-skipped
failure ("Failed to store output image"). The environment (network, storage,
clock, randomness in the key) decides which, so it is an input. -/
inductive FetchOutcome
  | ok (storageKey : String)
  | failed
deriving DecidableEq, Repr

/-- The `GenerationOutput` rows created by the success branch of
`handleKieCallback`: one `prisma.generationOutput.create` per result URL whose
fetch-and-upload succeeded, in payload order. -/
def storedOutputs (generationId taskId : String) (fetches : List FetchOutcome) :
    List GenerationOutput :=
  fetches.filterMap fun f =>
    match f with
    | .ok key => some ⟨generationId, taskId, key⟩
    | .failed => none

/-- `handleKieCallback` from `src/backend/src/jobs/generationWorker.ts`.

`fetches` encodes the parsed `resultUrls` of the success payload together with
the per-URL fetch/upload outcomes (a `null` or empty payload gives `[]`);
`now` is the wall clock used for `completedAt`. Steps, in source order:
find the generation whose `kieTaskIds` contains the task id (silent return if
none); idempotency check on output existence; append a `kie.callback` job-log
row; then the fail branch (increment + failure reason, finalize on
`variationsDone >= variationsTotal` with status depending on output count) or
the success branch (store outputs, increment, finalize unconditionally to
`completed`). -/
def handleKieCallback (db : DB) (taskId : String) (state : KieState)
    (fetches : List FetchOutcome) (failMsg : Option String) (now : Nat) : DB :=
  match db.generations.find? (fun g => g.kieTaskIds.contains taskId) with
  | none => db
  | some generation =>
    let generationId := generation.id
    if db.outputs.any (fun o => o.generationId == generationId && o.kieTaskId == taskId) then
      db
    else
      let db1 : DB := { db with jobLogs := db.jobLogs ++ [⟨generationId, "kie.callback"⟩] }
      match state with
      | .fail =>
        let db2 := updateGen db1 generationId fun g =>
          { g with variationsDone := g.variationsDone + 1,
                   failureReason := some (failMsg.getD "Kie AI task failed") }
        match findGen db2 generationId with
        | none => db2
        | some updated =>
          if updated.variationsTotal ≤ updated.variationsDone then
            let hasOutputs := db2.outputs.countP (fun o => o.generationId == generationId)
            updateGen db2 generationId fun g =>
              { g with status := if 0 < hasOutputs then .completed else .failed,
                       completedAt := some now }
          else db2
      | .success =>
        let db2 : DB := { db1 with outputs := db1.outputs ++ storedOutputs generationId taskId fetches }
        let db3 := updateGen db2 generationId fun g =>
          { g with variationsDone := g.variationsDone + 1 }
        match findGen db3 generationId with
        | none => db3
        | some updated =>
          if updated.variationsTotal ≤ updated.variationsDone then
            updateGen db3 generationId fun g =>
              { g with status := .completed, completedAt := some now }
          else db3

/-- One reconciler invocation: task id, terminal state, fetch outcomes of the
success payload, and the provider failure message. -/
structure ReconcileCall where
  taskId : String
  state : KieState
  fetches : List FetchOutcome
  failMsg : Option String
deriving DecidableEq, Repr

instance : Inhabited ReconcileCall := ⟨⟨"", .fail, [], none⟩⟩

/-- Run a sequence of reconciler invocations left to right. -/
def runCalls (db : DB) (calls : List ReconcileCall) (now : Nat) : DB :=
  calls.foldl (fun d c => handleKieCallback d c.taskId c.state c.fetches c.failMsg now) db

/-- Output rows created by one call of a run. -/
def callOutputs (gid : String) (c : ReconcileCall) : List GenerationOutput :=
  match c.state with
  | .success => storedOutputs gid c.taskId c.fetches
  | .fail => []

/-- Output rows created by a run of reconciler calls, in order. -/
def createdOutputs (gid : String) (calls : List ReconcileCall) : List GenerationOutput :=
  calls.foldr (fun c acc => callOutputs gid c ++ acc) []

/-- Number of success calls in a run. -/
def succCount (calls : List ReconcileCall) : Nat :=
  calls.countP (fun c => c.state == KieState.success)

/-- Job-log rows appended by a run of (non-deduplicated) reconciler calls. -/
def callLogs (gid : String) (calls : List ReconcileCall) : List JobLogEntry :=
  calls.map fun _ => ⟨gid, "kie.callback"⟩

/-- Terminal state of the last call of a run (`fail` for the empty run). -/
def lastCallState : List ReconcileCall → KieState
  | [] => .fail
  | [c] => c.state
  | _ :: c :: cs => lastCallState (c :: cs)

/-- The terminal status written by the finalizing reconciler call: the success
branch always writes `completed`; the fail branch writes `completed` exactly
when at least one output row exists for the generation. `outsAll` is the
output table at finalization time. -/
def finalStatus (gid : String) (outsAll : List GenerationOutput)
    (calls : List ReconcileCall) : GenStatus :=
  match lastCallState calls with
  | .success => .completed
  | .fail =>
    if 0 < outsAll.countP (fun o => o.generationId == gid) then .completed else .failed

/-- Number of `GenerationOutput` rows for one (generationId, task id) pair. -/
def outputRows (db : DB) (gid t : String) : Nat :=
  db.outputs.countP fun o => o.generationId == gid && o.kieTaskId == t

/-! ### Worker submission phase

The submission phase of `processGenerationJob`: mark processing, submit one
provider task per variation, then persist the task-id list and counters in a
single update. `submitted` records the task ids the provider has accepted so
far (a submitted task can complete at any time after its submission). -/

/-- Worker-visible state: the database plus the set of provider tasks that
have been submitted (and could therefore complete). -/
structure WorkerState where
  db : DB
  submitted : List String
deriving DecidableEq, Repr

/-- Step 1 of `processGenerationJob`: set status `processing`, stamp
`startedAt`, append a `job.started` log row. -/
def markProcessing (db : DB) (gid : String) (now : Nat) : DB :=
  let db1 := updateGen db gid fun g => { g with status := .processing, startedAt := some now }
  { db1 with jobLogs := db1.jobLogs ++ [⟨gid, "job.started"⟩] }

/-- One iteration of the submission loop: `kieCreateTask` returns `tid` (now a
live provider task), and a `kie.submitted` log row is appended. The generation
row itself is not touched. -/
def submitTask (st : WorkerState) (gid tid : String) : WorkerState :=
  { db := { st.db with jobLogs := st.db.jobLogs ++ [⟨gid, "kie.submitted"⟩] },
    submitted := st.submitted ++ [tid] }

/-- The single update after the submission loop: store all task ids, set
`variationsTotal`, reset `variationsDone` to 0. -/
def persistTaskIds (db : DB) (gid : String) (taskIds : List String) (variations : Nat) : DB :=
  updateGen db gid fun g =>
    { g with kieTaskIds := taskIds, variationsTotal := variations, variationsDone := 0 }

/-- Worker state after the whole submission phase (just before the polling
loop): all tasks submitted, task ids persisted. -/
def workerFinal (db0 : DB) (gid : String) (taskIds : List String) (variations : Nat)
    (now : Nat) : WorkerState :=
  let s0 : WorkerState := ⟨markProcessing db0 gid now, []⟩
  let sl := taskIds.foldl (fun st tid => submitTask st gid tid) s0
  { sl with db := persistTaskIds sl.db gid taskIds variations }

/-- Every worker-visible state of the submission phase, in execution order:
after marking processing, after each task submission, and after the persist
update. -/
def workerStates (db0 : DB) (gid : String) (taskIds : List String) (variations : Nat)
    (now : Nat) : List WorkerState :=
  let s0 : WorkerState := ⟨markProcessing db0 gid now, []⟩
  taskIds.scanl (fun st tid => submitTask st gid tid) s0 ++
    [workerFinal db0 gid taskIds variations now]

/-- Does every already-submitted task id appear in the persisted
`kieTaskIds` list of the generation row? -/
def submittedPersisted (gid : String) (st : WorkerState) : Bool :=
  st.submitted.all fun t =>
    match findGen st.db gid with
    | some g => g.kieTaskIds.contains t
    | none => false

/-! ### Webhook route

`POST /webhooks/kieai` from the express webhook router. The handler's
externally visible behaviour is the ordered list of events it emits:
the HTTP acknowledgment and the (fire-and-forget) reconciler invocation. -/

/-- The `data` object of a Kie AI webhook body. `taskId` is `none` when the
field is absent; the route's `!data?.taskId` check also treats the empty
string as missing (JavaScript falsiness). -/
structure KieWebhookData where
  taskId : Option String
  state : String
  resultJson : Option String
  failMsg : Option String
deriving DecidableEq, Repr

/-- A Kie AI webhook POST body. -/
structure KieWebhookBody where
  code : Int
  data : Option KieWebhookData
  msg : String
deriving DecidableEq, Repr

/-- Externally visible actions of the webhook handler, in order. -/
inductive WebhookEvent
  | respond (status : Nat) (received : Bool)
  | reconcile (taskId : String) (state : KieState) (resultJson : Option String)
      (failMsg : Option String)
deriving DecidableEq, Repr

/-- The `POST /webhooks/kieai` handler: missing or falsy `taskId` is answered
`200 {received:false}` and skipped; otherwise the handler responds
`200 {received:true}` first, then invokes `handleKieCallback` only for the
terminal states `"success"` and `"fail"`. -/
def kieWebhookHandler (body : KieWebhookBody) : List WebhookEvent :=
  match body.data with
  | none => [.respond 200 false]
  | some data =>
    match data.taskId with
    | none => [.respond 200 false]
    | some tid =>
      if tid == "" then [.respond 200 false]
      else if data.state == "success" then
        [.respond 200 true, .reconcile tid .success data.resultJson data.failMsg]
      else if data.state == "fail" then
        [.respond 200 true, .reconcile tid .fail data.resultJson data.failMsg]
      else
        [.respond 200 true]

/-! ### Job queue

`enqueueGeneration` from the BullMQ queue wrapper. The queue itself is the
external Job Queue collaborator; its contract (spec section 6: dedup-by-key
insertion keyed on the explicit job id, as implemented by BullMQ custom job
ids) is modelled as `queueAdd`. -/

/-- One queued (active) job. -/
structure QueueJob where
  jobId : String
  name : String
  generationId : String
  sessionId : String
deriving DecidableEq, Repr

/-- Modelled from the spec: the external Job Queue's
`enqueue(key, payload) -> jobId` contract — idempotent-by-key insertion: an
add with a job id that is already active is a no-op (no second job). -/
def queueAdd (q : List QueueJob) (name generationId sessionId jobId : String) :
    List QueueJob :=
  if q.any (fun j => j.jobId == jobId) then q
  else q ++ [⟨jobId, name, generationId, sessionId⟩]

/-- `enqueueGeneration` from the queue wrapper: `queue.add("generate",
{ generationId, sessionId }, { jobId: generationId })` — the generation id is
passed as the BullMQ job id. -/
def enqueueGeneration (q : List QueueJob) (generationId sessionId : String) :
    List QueueJob :=
  queueAdd q "generate" generationId sessionId generationId

/-! ## Lemmas about the repository operations -/

theorem find?_map_updRow (l : List Generation) (gid gid' : String)
    (f : Generation → Generation) (hf : ∀ g, (f g).id = g.id) :
    ((l.map fun g => if g.id == gid then f g else g).find? fun g => g.id == gid') =
      ((l.find? fun g => g.id == gid').map fun g => if g.id == gid then f g else g) := by
  have hp : ((fun g : Generation => g.id == gid') ∘ fun g => if g.id == gid then f g else g)
      = fun g : Generation => g.id == gid' := by
    funext g
    by_cases h : g.id = gid <;> simp [h, hf]
  rw [List.find?_map, hp]

theorem findGen_updateGen (db : DB) (gid gid' : String) (f : Generation → Generation)
    (hf : ∀ g, (f g).id = g.id) :
    findGen (updateGen db gid f) gid' =
      (findGen db gid').map fun g => if g.id == gid then f g else g :=
  find?_map_updRow db.generations gid gid' f hf

theorem mem_storedOutputs {o : GenerationOutput} {gid t : String}
    {fs : List FetchOutcome} (h : o ∈ storedOutputs gid t fs) :
    o.generationId = gid ∧ o.kieTaskId = t := by
  unfold storedOutputs at h
  rw [List.mem_filterMap] at h
  obtain ⟨f, _, hf⟩ := h
  cases f with
  | ok key => cases hf; exact ⟨rfl, rfl⟩
  | failed => cases hf

theorem storedOutputs_any_false (gid t e t' : String) (fs : List FetchOutcome)
    (h : (t == t') = false) :
    ((storedOutputs gid t fs).any fun o => o.generationId == e && o.kieTaskId == t') = false := by
  rw [List.any_eq_false]
  intro o ho
  obtain ⟨-, h2⟩ := mem_storedOutputs ho
  simp [h2, h]

theorem storedOutputs_any_pair (gid t : String) (fs : List FetchOutcome)
    (h : storedOutputs gid t fs ≠ []) :
    ((storedOutputs gid t fs).any fun o => o.generationId == gid && o.kieTaskId == t) = true := by
  rw [List.any_eq_true]
  obtain ⟨o, ho⟩ := List.exists_mem_of_ne_nil _ h
  obtain ⟨h1, h2⟩ := mem_storedOutputs ho
  exact ⟨o, ho, by simp [h1, h2]⟩

theorem hkc_unknown (db : DB) (t : String) (st : KieState) (fs : List FetchOutcome)
    (fm : Option String) (now : Nat)
    (h : ∀ g ∈ db.generations, t ∉ g.kieTaskIds) :
    handleKieCallback db t st fs fm now = db := by
  have hn : (db.generations.find? fun g => g.kieTaskIds.contains t) = none :=
    List.find?_eq_none.mpr (fun g hg => by simp [h g hg])
  unfold handleKieCallback
  rw [hn]

theorem hkc_dedup (g : Generation) (outs : List GenerationOutput) (logs : List JobLogEntry)
    (t : String) (st : KieState) (fs : List FetchOutcome) (fm : Option String) (now : Nat)
    (ht : t ∈ g.kieTaskIds)
    (hdup : (outs.any fun o => o.generationId == g.id && o.kieTaskId == t) = true) :
    handleKieCallback ⟨[g], outs, logs⟩ t st fs fm now = ⟨[g], outs, logs⟩ := by
  have h1 : (([g] : List Generation).find? fun x => x.kieTaskIds.contains t) = some g := by
    simp [List.find?, ht]
  unfold handleKieCallback
  rw [h1]
  simp [hdup]

theorem hkc_fail_step_lt (g : Generation) (outs : List GenerationOutput) (logs : List JobLogEntry)
    (t : String) (fs : List FetchOutcome) (fm : Option String) (now : Nat)
    (ht : t ∈ g.kieTaskIds)
    (hfresh : (outs.any fun o => o.generationId == g.id && o.kieTaskId == t) = false)
    (hlt : g.variationsDone + 1 < g.variationsTotal) :
    handleKieCallback ⟨[g], outs, logs⟩ t .fail fs fm now =
      ⟨[{ g with variationsDone := g.variationsDone + 1,
                 failureReason := some (fm.getD "Kie AI task failed") }],
        outs, logs ++ [⟨g.id, "kie.callback"⟩]⟩ := by
  have h1 : (([g] : List Generation).find? fun x => x.kieTaskIds.contains t) = some g := by
    simp [List.find?, ht]
  unfold handleKieCallback
  rw [h1]
  simp [hfresh, updateGen, findGen, List.find?, Nat.not_le.mpr hlt]

theorem hkc_fail_step_fin (g : Generation) (outs : List GenerationOutput)
    (logs : List JobLogEntry) (t : String) (fs : List FetchOutcome) (fm : Option String)
    (now : Nat)
    (ht : t ∈ g.kieTaskIds)
    (hfresh : (outs.any fun o => o.generationId == g.id && o.kieTaskId == t) = false)
    (hge : g.variationsTotal ≤ g.variationsDone + 1) :
    handleKieCallback ⟨[g], outs, logs⟩ t .fail fs fm now =
      ⟨[{ g with variationsDone := g.variationsDone + 1,
                 failureReason := some (fm.getD "Kie AI task failed"),
                 status := if 0 < outs.countP (fun o => o.generationId == g.id) then
                     .completed else .failed,
                 completedAt := some now }],
        outs, logs ++ [⟨g.id, "kie.callback"⟩]⟩ := by
  have h1 : (([g] : List Generation).find? fun x => x.kieTaskIds.contains t) = some g := by
    simp [List.find?, ht]
  unfold handleKieCallback
  rw [h1]
  simp [hfresh, updateGen, findGen, List.find?, hge]

theorem hkc_succ_step_lt (g : Generation) (outs : List GenerationOutput)
    (logs : List JobLogEntry) (t : String) (fs : List FetchOutcome) (fm : Option String)
    (now : Nat)
    (ht : t ∈ g.kieTaskIds)
    (hfresh : (outs.any fun o => o.generationId == g.id && o.kieTaskId == t) = false)
    (hlt : g.variationsDone + 1 < g.variationsTotal) :
    handleKieCallback ⟨[g], outs, logs⟩ t .success fs fm now =
      ⟨[{ g with variationsDone := g.variationsDone + 1 }],
        outs ++ storedOutputs g.id t fs, logs ++ [⟨g.id, "kie.callback"⟩]⟩ := by
  have h1 : (([g] : List Generation).find? fun x => x.kieTaskIds.contains t) = some g := by
    simp [List.find?, ht]
  unfold handleKieCallback
  rw [h1]
  simp [hfresh, updateGen, findGen, List.find?, Nat.not_le.mpr hlt]

theorem hkc_succ_step_fin (g : Generation) (outs : List GenerationOutput)
    (logs : List JobLogEntry) (t : String) (fs : List FetchOutcome) (fm : Option String)
    (now : Nat)
    (ht : t ∈ g.kieTaskIds)
    (hfresh : (outs.any fun o => o.generationId == g.id && o.kieTaskId == t) = false)
    (hge : g.variationsTotal ≤ g.variationsDone + 1) :
    handleKieCallback ⟨[g], outs, logs⟩ t .success fs fm now =
      ⟨[{ g with variationsDone := g.variationsDone + 1,
                 status := .completed,
                 completedAt := some now }],
        outs ++ storedOutputs g.id t fs, logs ++ [⟨g.id, "kie.callback"⟩]⟩ := by
  have h1 : (([g] : List Generation).find? fun x => x.kieTaskIds.contains t) = some g := by
    simp [List.find?, ht]
  unfold handleKieCallback
  rw [h1]
  simp [hfresh, updateGen, findGen, List.find?, hge]

theorem runCalls_cons (db : DB) (c : ReconcileCall) (cs : List ReconcileCall) (now : Nat) :
    runCalls db (c :: cs) now =
      runCalls (handleKieCallback db c.taskId c.state c.fetches c.failMsg now) cs now := rfl

theorem createdOutputs_cons (gid : String) (c : ReconcileCall) (cs : List ReconcileCall) :
    createdOutputs gid (c :: cs) = callOutputs gid c ++ createdOutputs gid cs := rfl

theorem mem_createdOutputs {o : GenerationOutput} {gid : String}
    {calls : List ReconcileCall} (h : o ∈ createdOutputs gid calls) :
    o.generationId = gid := by
  induction calls with
  | nil => cases h
  | cons c cs ih =>
    rw [createdOutputs_cons, List.mem_append] at h
    rcases h with h | h
    · unfold callOutputs at h
      split at h
      · exact (mem_storedOutputs h).1
      · cases h
    · exact ih h

theorem lastCallState_cons (c : ReconcileCall) (cs : List ReconcileCall) (h : cs ≠ []) :
    lastCallState (c :: cs) = lastCallState cs := by
  cases cs with
  | nil => exact absurd rfl h
  | cons c' cs' => rfl

theorem succCount_pos_of_lastSuccess (calls : List ReconcileCall) (hne : calls ≠ [])
    (h : lastCallState calls = .success) : 0 < succCount calls := by
  induction calls with
  | nil => exact absurd rfl hne
  | cons c cs ih =>
    cases cs with
    | nil =>
      unfold lastCallState at h
      simp [succCount, List.countP_cons, h]
    | cons c' cs' =>
      rw [lastCallState_cons c _ (by simp)] at h
      have := ih (by simp) h
      unfold succCount at this ⊢
      rw [List.countP_cons]
      omega

/-- Running distinct fresh reconciler calls that do not reach the total:
each call increments `variationsDone` by one and appends its outputs and its
job-log row; status, `completedAt` and all other fields are untouched
(`failureReason` moves to some value `fr`). -/
theorem runCalls_nf (now : Nat) :
    ∀ (calls : List ReconcileCall) (g : Generation) (outs : List GenerationOutput)
      (logs : List JobLogEntry),
      (∀ c ∈ calls, c.taskId ∈ g.kieTaskIds) →
      (calls.map (fun c => c.taskId)).Nodup →
      (∀ c ∈ calls, (outs.any fun o => o.generationId == g.id && o.kieTaskId == c.taskId) = false) →
      g.variationsDone + calls.length < g.variationsTotal →
      ∃ fr, runCalls ⟨[g], outs, logs⟩ calls now =
        ⟨[{ g with variationsDone := g.variationsDone + calls.length, failureReason := fr }],
          outs ++ createdOutputs g.id calls, logs ++ callLogs g.id calls⟩ := by
  intro calls
  induction calls with
  | nil =>
    intro g outs logs _ _ _ _
    exact ⟨g.failureReason, by simp [runCalls, createdOutputs, callLogs]⟩
  | cons c cs ih =>
    intro g outs logs hmem hnodup hfresh hlt
    have hcmem : c.taskId ∈ g.kieTaskIds := hmem c (by simp)
    have hcfresh := hfresh c (by simp)
    have hlt1 : g.variationsDone + 1 < g.variationsTotal := by
      simp only [List.length_cons] at hlt; omega
    have hnodup' : (cs.map (fun c => c.taskId)).Nodup := by
      simp only [List.map_cons, List.nodup_cons] at hnodup; exact hnodup.2
    have hhead : c.taskId ∉ cs.map (fun c => c.taskId) := by
      simp only [List.map_cons, List.nodup_cons] at hnodup; exact hnodup.1
    have hltlen : g.variationsDone + cs.length + 1 < g.variationsTotal := by
      simp only [List.length_cons] at hlt; omega
    cases hstate : c.state with
    | fail =>
      obtain ⟨fr, hrun⟩ := ih
        { g with variationsDone := g.variationsDone + 1,
                 failureReason := some (c.failMsg.getD "Kie AI task failed") }
        outs (logs ++ [⟨g.id, "kie.callback"⟩])
        (fun c' hc' => by simpa using hmem c' (by simp [hc']))
        hnodup'
        (by intro c' hc'; simpa using hfresh c' (by simp [hc']))
        (by simp; omega)
      refine ⟨fr, ?_⟩
      rw [runCalls_cons, hstate, hkc_fail_step_lt g outs logs c.taskId c.fetches c.failMsg now
        hcmem hcfresh hlt1]
      rw [hrun]
      simp [createdOutputs_cons, callOutputs, hstate, callLogs, List.append_assoc]
      omega
    | success =>
      obtain ⟨fr, hrun⟩ := ih
        { g with variationsDone := g.variationsDone + 1 }
        (outs ++ storedOutputs g.id c.taskId c.fetches) (logs ++ [⟨g.id, "kie.callback"⟩])
        (fun c' hc' => by simpa using hmem c' (by simp [hc']))
        hnodup'
        (by
          intro c' hc'
          rw [List.any_append]
          have h1 := hfresh c' (by simp [hc'])
          have hne : (c.taskId == c'.taskId) = false := by
            rw [beq_eq_false_iff_ne]
            intro hEq
            exact hhead (hEq ▸ List.mem_map_of_mem (fun c => c.taskId) hc')
          simp [h1, storedOutputs_any_false g.id c.taskId g.id c'.taskId c.fetches hne])
        (by simp; omega)
      refine ⟨fr, ?_⟩
      rw [runCalls_cons, hstate, hkc_succ_step_lt g outs logs c.taskId c.fetches c.failMsg now
        hcmem hcfresh hlt1]
      rw [hrun]
      simp [createdOutputs_cons, callOutputs, hstate, callLogs, List.append_assoc]
      omega

/-- Running distinct fresh reconciler calls that exactly reach the total:
`variationsDone` ends at `variationsTotal`, `completedAt` is stamped, and the
status is the finalizing call's terminal status (`finalStatus`). -/
theorem runCalls_fin (now : Nat) :
    ∀ (calls : List ReconcileCall) (g : Generation) (outs : List GenerationOutput)
      (logs : List JobLogEntry),
      calls ≠ [] →
      (∀ c ∈ calls, c.taskId ∈ g.kieTaskIds) →
      (calls.map (fun c => c.taskId)).Nodup →
      (∀ c ∈ calls, (outs.any fun o => o.generationId == g.id && o.kieTaskId == c.taskId) = false) →
      g.variationsDone + calls.length = g.variationsTotal →
      ∃ fr, runCalls ⟨[g], outs, logs⟩ calls now =
        ⟨[{ g with variationsDone := g.variationsTotal,
                   failureReason := fr,
                   status := finalStatus g.id (outs ++ createdOutputs g.id calls) calls,
                   completedAt := some now }],
          outs ++ createdOutputs g.id calls, logs ++ callLogs g.id calls⟩ := by
  intro calls
  induction calls with
  | nil => intro g outs logs hne; exact absurd rfl hne
  | cons c cs ih =>
    intro g outs logs _ hmem hnodup hfresh heq
    have hcmem : c.taskId ∈ g.kieTaskIds := hmem c (by simp)
    have hcfresh := hfresh c (by simp)
    have hnodup' : (cs.map (fun c => c.taskId)).Nodup := by
      simp only [List.map_cons, List.nodup_cons] at hnodup; exact hnodup.2
    have hhead : c.taskId ∉ cs.map (fun c => c.taskId) := by
      simp only [List.map_cons, List.nodup_cons] at hnodup; exact hnodup.1
    have heqlen : g.variationsDone + cs.length + 1 = g.variationsTotal := by
      simp only [List.length_cons] at heq; omega
    cases cs with
    | nil =>
      have hge : g.variationsTotal ≤ g.variationsDone + 1 := by
        simp only [List.length] at heqlen; omega
      cases hstate : c.state with
      | fail =>
        refine ⟨some (c.failMsg.getD "Kie AI task failed"), ?_⟩
        rw [runCalls_cons, hstate,
          hkc_fail_step_fin g outs logs c.taskId c.fetches c.failMsg now hcmem hcfresh hge]
        simp [runCalls, finalStatus, lastCallState, hstate, createdOutputs, callOutputs, callLogs]
        omega
      | success =>
        refine ⟨g.failureReason, ?_⟩
        rw [runCalls_cons, hstate,
          hkc_succ_step_fin g outs logs c.taskId c.fetches c.failMsg now hcmem hcfresh hge]
        simp [runCalls, finalStatus, lastCallState, hstate, createdOutputs, callOutputs, callLogs]
        omega
    | cons c2 cs2 =>
      have hlt1 : g.variationsDone + 1 < g.variationsTotal := by
        simp only [List.length_cons] at heqlen; omega
      cases hstate : c.state with
      | fail =>
        obtain ⟨fr, hrun⟩ := ih
          { g with variationsDone := g.variationsDone + 1,
                   failureReason := some (c.failMsg.getD "Kie AI task failed") }
          outs (logs ++ [⟨g.id, "kie.callback"⟩])
          (by simp)
          (fun c' hc' => by simpa using hmem c' (by simp [hc']))
          hnodup'
          (by intro c' hc'; simpa using hfresh c' (by simp [hc']))
          (by simp only [List.length_cons] at heqlen; simp; omega)
        refine ⟨fr, ?_⟩
        rw [runCalls_cons, hstate,
          hkc_fail_step_lt g outs logs c.taskId c.fetches c.failMsg now hcmem hcfresh hlt1]
        rw [hrun]
        simp [createdOutputs_cons, callOutputs, hstate, callLogs, List.append_assoc, finalStatus,
          lastCallState]
      | success =>
        obtain ⟨fr, hrun⟩ := ih
          { g with variationsDone := g.variationsDone + 1 }
          (outs ++ storedOutputs g.id c.taskId c.fetches) (logs ++ [⟨g.id, "kie.callback"⟩])
          (by simp)
          (fun c' hc' => by simpa using hmem c' (by simp [hc']))
          hnodup'
          (by
            intro c' hc'
            rw [List.any_append]
            have h1 := hfresh c' (by simp [hc'])
            have hne : (c.taskId == c'.taskId) = false := by
              rw [beq_eq_false_iff_ne]
              intro hEq
              exact hhead (hEq ▸ List.mem_map_of_mem (fun c => c.taskId) hc')
            simp [h1, storedOutputs_any_false g.id c.taskId g.id c'.taskId c.fetches hne])
          (by simp only [List.length_cons] at heqlen; simp; omega)
        refine ⟨fr, ?_⟩
        rw [runCalls_cons, hstate,
          hkc_succ_step_lt g outs logs c.taskId c.fetches c.failMsg now hcmem hcfresh hlt1]
        rw [hrun]
        simp [createdOutputs_cons, callOutputs, hstate, callLogs, List.append_assoc, finalStatus,
          lastCallState]

/-- When every success call stores exactly one output, a run creates exactly
one output row per success call. -/
theorem createdOutputs_length (gid : String) (calls : List ReconcileCall)
    (hone : ∀ c ∈ calls, c.state = KieState.success →
      (storedOutputs gid c.taskId c.fetches).length = 1) :
    (createdOutputs gid calls).length = succCount calls := by
  induction calls with
  | nil => rfl
  | cons c cs ih =>
    rw [createdOutputs_cons, List.length_append,
      ih (fun c' h hs => hone c' (by simp [h]) hs)]
    unfold succCount
    rw [List.countP_cons]
    cases hstate : c.state with
    | success => simp [callOutputs, hstate, hone c (by simp) hstate]; omega
    | fail => simp [callOutputs, hstate]

/-- Every output row created by a run belongs to the generation, so they all
count towards the fail-branch `hasOutputs` count. -/
theorem createdOutputs_countP (gid : String) (calls : List ReconcileCall) :
    (createdOutputs gid calls).countP (fun o => o.generationId == gid) =
      (createdOutputs gid calls).length :=
  List.countP_eq_length.mpr (fun o ho => by simp [mem_createdOutputs ho])

/-- The submission loop only appends job-log rows and extends the submitted
set; it never touches the generation rows or the outputs. -/
theorem foldl_submitTask (gid : String) :
    ∀ (tids : List String) (st : WorkerState),
      tids.foldl (fun st tid => submitTask st gid tid) st =
        ⟨{ st.db with jobLogs := st.db.jobLogs ++ tids.map (fun _ => ⟨gid, "kie.submitted"⟩) },
          st.submitted ++ tids⟩ := by
  intro tids
  induction tids with
  | nil => intro st; simp
  | cons t ts ih =>
    intro st
    rw [List.foldl_cons, ih]
    simp [submitTask, List.append_assoc]

/-! ## Claims -/

/-- C7: the two parameter-mapping functions are pure total functions equal to
their fixed tables: `resolutionMap` maps `"2k"` (and `"2K"`) to `"2K"`, maps
`"8k"` to `"4K"` (ceiling clamp), and maps every other string to `"4K"`;
`aspectRatioFromParams` maps framing `"full-body"` to `"2:3"`, `"waist-legs"`
to `"3:4"`, and any other or absent framing to `"2:3"`. -/
theorem C7_parameter_mapping_tables :
    resolutionMap "2k" = "2K" ∧ resolutionMap "2K" = "2K" ∧
    resolutionMap "8k" = "4K" ∧ resolutionMap "8K" = "4K" ∧
    (∀ s : String, s ≠ "2k" → s ≠ "2K" → resolutionMap s = "4K") ∧
    (∀ v : Option String, aspectRatioFromParams ⟨some "full-body", v⟩ = "2:3") ∧
    (∀ v : Option String, aspectRatioFromParams ⟨some "waist-legs", v⟩ = "3:4") ∧
    (∀ p : AspectParams, p.framing ≠ some "full-body" → p.framing ≠ some "waist-legs" →
      aspectRatioFromParams p = "2:3") := by
  refine ⟨rfl, rfl, rfl, rfl, ?_, fun v => rfl, fun v => rfl, ?_⟩
  · intro s h1 h2
    simp [resolutionMap, h1, h2]
  · intro p h1 h2
    simp [aspectRatioFromParams, h1, h2]

/-- C7 witness: the mapping tables evaluated at the unrecognized inputs
`"blah"` and framing `"preserve"` / absent framing. -/
theorem C7_parameter_mapping_tables_witness :
    resolutionMap "blah" = "4K" ∧ resolutionMap "4k" = "4K" ∧
    aspectRatioFromParams ⟨some "preserve", some "front"⟩ = "2:3" ∧
    aspectRatioFromParams ⟨none, none⟩ = "2:3" :=
  ⟨C7_parameter_mapping_tables.2.2.2.2.1 "blah" (by decide) (by decide),
   C7_parameter_mapping_tables.2.2.2.2.1 "4k" (by decide) (by decide),
   C7_parameter_mapping_tables.2.2.2.2.2.2.2 ⟨some "preserve", some "front"⟩
     (by decide) (by decide),
   C7_parameter_mapping_tables.2.2.2.2.2.2.2 ⟨none, none⟩ (by decide) (by decide)⟩

/-- C8: a reconciler invocation for a task id that appears in no generation's
task-id list is a no-op: the database (generations, outputs, job log) is
returned unchanged, and since `handleKieCallback` is a total function no
exception is raised. -/
theorem C8_unknown_taskId_noop :
    ∀ (db : DB) (t : String) (st : KieState) (fs : List FetchOutcome)
      (fm : Option String) (now : Nat),
      (∀ g ∈ db.generations, t ∉ g.kieTaskIds) →
      handleKieCallback db t st fs fm now = db := by
  intro db t st fs fm now h
  exact hkc_unknown db t st fs fm now h

/-- C8 witness: a forged callback for task `"zz"` against a database holding
a generation with tasks `"t1", "t2"` leaves the database unchanged. -/
theorem C8_unknown_taskId_noop_witness :
    handleKieCallback
        ⟨[⟨"g1", .processing, ["t1", "t2"], 2, 0, none, none, none⟩],
          [⟨"g1", "t1", "k1"⟩], []⟩ "zz" .success [.ok "k9"] none 3 =
      ⟨[⟨"g1", .processing, ["t1", "t2"], 2, 0, none, none, none⟩],
        [⟨"g1", "t1", "k1"⟩], []⟩ :=
  C8_unknown_taskId_noop
    ⟨[⟨"g1", .processing, ["t1", "t2"], 2, 0, none, none, none⟩], [⟨"g1", "t1", "k1"⟩], []⟩
    "zz" .success [.ok "k9"] none 3 (by decide)

/-- C9: for every webhook POST body, the handler's first emitted event is the
HTTP 200 acknowledgment (so reconciliation can only happen after the sender
has been answered); a reconcile invocation is emitted only when the payload
carries that task id with terminal state `"success"` or `"fail"`; and a
malformed body (missing data, missing or empty `taskId`) is acknowledged with
200 `received:false` and nothing else, without crashing. -/
theorem C9_webhook_ack_then_reconcile :
    ∀ body : KieWebhookBody,
      (∃ recv rest, kieWebhookHandler body = WebhookEvent.respond 200 recv :: rest) ∧
      (∀ t st rj fm, WebhookEvent.reconcile t st rj fm ∈ kieWebhookHandler body →
        ∃ d, body.data = some d ∧ d.taskId = some t ∧
          (d.state = "success" ∨ d.state = "fail")) ∧
      ((body.data = none ∨ ∃ d, body.data = some d ∧ (d.taskId = none ∨ d.taskId = some "")) →
        kieWebhookHandler body = [WebhookEvent.respond 200 false]) := by
  intro body
  obtain ⟨code, data, msg⟩ := body
  cases data with
  | none =>
    refine ⟨⟨false, [], rfl⟩, ?_, fun _ => rfl⟩
    intro t st rj fm h
    simp [kieWebhookHandler] at h
  | some d =>
    obtain ⟨otid, dstate, rj0, fm0⟩ := d
    cases otid with
    | none =>
      refine ⟨⟨false, [], rfl⟩, ?_, fun _ => rfl⟩
      intro t st rj fm h
      simp [kieWebhookHandler] at h
    | some tid =>
      by_cases h0 : tid = ""
      · subst h0
        refine ⟨⟨false, [], rfl⟩, ?_, fun _ => rfl⟩
        intro t st rj fm h
        simp [kieWebhookHandler] at h
      · have h0' : (tid == "") = false := beq_eq_false_iff_ne.mpr h0
        have hmal3 :
            ((some (⟨some tid, dstate, rj0, fm0⟩ : KieWebhookData) = none ∨
              ∃ d', some (⟨some tid, dstate, rj0, fm0⟩ : KieWebhookData) = some d' ∧
                (d'.taskId = none ∨ d'.taskId = some "")) →
              kieWebhookHandler ⟨code, some ⟨some tid, dstate, rj0, fm0⟩, msg⟩ =
                [WebhookEvent.respond 200 false]) := by
          intro hmal
          rcases hmal with hm | ⟨d', hd', hm⟩
          · simp at hm
          · injection hd' with hd2
            subst hd2
            rcases hm with hm | hm
            · simp at hm
            · simp at hm
              exact absurd hm h0
        by_cases hs : dstate = "success"
        · subst hs
          have hval : kieWebhookHandler ⟨code, some ⟨some tid, "success", rj0, fm0⟩, msg⟩ =
              [.respond 200 true, .reconcile tid .success rj0 fm0] := by
            simp [kieWebhookHandler, h0']
          refine ⟨⟨true, [.reconcile tid .success rj0 fm0], hval⟩, ?_, hmal3⟩
          intro t st rj fm h
          rw [hval] at h
          rcases List.mem_cons.mp h with h | h
          · simp at h
          · rcases List.mem_cons.mp h with h | h
            · injection h with h1 h2 h3 h4
              exact ⟨⟨some tid, "success", rj0, fm0⟩, rfl, by rw [h1], Or.inl rfl⟩
            · exact absurd h (List.not_mem_nil _)
        · by_cases hf : dstate = "fail"
          · subst hf
            have hval : kieWebhookHandler ⟨code, some ⟨some tid, "fail", rj0, fm0⟩, msg⟩ =
                [.respond 200 true, .reconcile tid .fail rj0 fm0] := by
              simp [kieWebhookHandler, h0']
            refine ⟨⟨true, [.reconcile tid .fail rj0 fm0], hval⟩, ?_, hmal3⟩
            intro t st rj fm h
            rw [hval] at h
            rcases List.mem_cons.mp h with h | h
            · simp at h
            · rcases List.mem_cons.mp h with h | h
              · injection h with h1 h2 h3 h4
                exact ⟨⟨some tid, "fail", rj0, fm0⟩, rfl, by rw [h1], Or.inr rfl⟩
              · exact absurd h (List.not_mem_nil _)
          · have hs' : (dstate == "success") = false := beq_eq_false_iff_ne.mpr hs
            have hf' : (dstate == "fail") = false := beq_eq_false_iff_ne.mpr hf
            have hval : kieWebhookHandler ⟨code, some ⟨some tid, dstate, rj0, fm0⟩, msg⟩ =
                [.respond 200 true] := by
              simp [kieWebhookHandler, h0', hs', hf']
            refine ⟨⟨true, [], hval⟩, ?_, hmal3⟩
            intro t st rj fm h
            rw [hval] at h
            simp at h

/-- C9 witness: a body with a missing `taskId` is acknowledged with
200 `received:false` and triggers no reconcile event. -/
theorem C9_webhook_ack_then_reconcile_witness :
    kieWebhookHandler ⟨200, some ⟨none, "success", some "{}", none⟩, "ok"⟩ =
      [WebhookEvent.respond 200 false] :=
  (C9_webhook_ack_then_reconcile ⟨200, some ⟨none, "success", some "{}", none⟩, "ok"⟩).2.2
    (Or.inr ⟨⟨none, "success", some "{}", none⟩, rfl, Or.inl rfl⟩)

/-- C10: `enqueueGeneration` passes the generation id itself as the queue's
job id (the deduplication key), the enqueued job carries that job id, and
re-enqueuing the same generation id while its job is active is a no-op: no
second job is created. -/
theorem C10_enqueue_dedup_by_generation_id :
    ∀ (q : List QueueJob) (gid sid sid' : String),
      enqueueGeneration q gid sid = queueAdd q "generate" gid sid gid ∧
      (∃ j ∈ enqueueGeneration q gid sid, j.jobId = gid) ∧
      enqueueGeneration (enqueueGeneration q gid sid) gid sid' =
        enqueueGeneration q gid sid := by
  intro q gid sid sid'
  refine ⟨rfl, ?_, ?_⟩
  · unfold enqueueGeneration queueAdd
    by_cases h : (q.any fun j => j.jobId == gid) = true
    · rw [if_pos h]
      obtain ⟨j, hj, hjid⟩ := List.any_eq_true.mp h
      exact ⟨j, hj, by simpa using hjid⟩
    · rw [if_neg h]
      exact ⟨⟨gid, "generate", gid, sid⟩, by simp, rfl⟩
  · have hmem : ((enqueueGeneration q gid sid).any fun j => j.jobId == gid) = true := by
      unfold enqueueGeneration queueAdd
      by_cases h : (q.any fun j => j.jobId == gid) = true
      · rw [if_pos h]; exact h
      · rw [if_neg h]
        rw [List.any_append]
        simp
    show queueAdd _ "generate" gid sid' gid = _
    unfold queueAdd
    rw [if_pos hmem]

/-- C6: a success reconciliation whose payload stores zero outputs (null or
empty `resultUrls`, or every per-URL fetch failed and was skipped) still
increments `variationsDone`, and when that increment reaches
`variationsTotal` the generation is finalized to `completed` with no check
that any output row exists — the output table is unchanged, so a generation
with no outputs at all ends `completed` with zero outputs. -/
theorem C6_success_zero_outputs_completes :
    ∀ (g : Generation) (outs : List GenerationOutput) (logs : List JobLogEntry)
      (t : String) (fs : List FetchOutcome) (fm : Option String) (now : Nat),
      t ∈ g.kieTaskIds →
      (outs.any fun o => o.generationId == g.id && o.kieTaskId == t) = false →
      storedOutputs g.id t fs = [] →
      g.variationsTotal ≤ g.variationsDone + 1 →
      handleKieCallback ⟨[g], outs, logs⟩ t .success fs fm now =
        ⟨[{ g with variationsDone := g.variationsDone + 1,
                   status := .completed, completedAt := some now }],
          outs, logs ++ [⟨g.id, "kie.callback"⟩]⟩ ∧
      ((outs.countP fun o => o.generationId == g.id) = 0 →
        ((handleKieCallback ⟨[g], outs, logs⟩ t .success fs fm now).outputs.countP
          fun o => o.generationId == g.id) = 0) := by
  intro g outs logs t fs fm now ht hfresh hzero hge
  have hmain := hkc_succ_step_fin g outs logs t fs fm now ht hfresh hge
  rw [hzero, List.append_nil] at hmain
  exact ⟨hmain, fun hcnt => by rw [hmain]; exact hcnt⟩

/-- C6 witness: a single-variation generation receiving a success callback
with an empty result list ends `completed` with zero output rows. -/
theorem C6_success_zero_outputs_completes_witness :
    handleKieCallback ⟨[⟨"g1", .processing, ["t1"], 1, 0, none, some 1, none⟩], [], []⟩
        "t1" .success [] none 9 =
      ⟨[⟨"g1", .completed, ["t1"], 1, 1, none, some 1, some 9⟩],
        [], [⟨"g1", "kie.callback"⟩]⟩ ∧
    ((handleKieCallback ⟨[⟨"g1", .processing, ["t1"], 1, 0, none, some 1, none⟩], [], []⟩
        "t1" .success [] none 9).outputs.countP
      fun o => o.generationId == "g1") = 0 := by
  have h := C6_success_zero_outputs_completes
    ⟨"g1", .processing, ["t1"], 1, 0, none, some 1, none⟩ [] [] "t1" [] none 9
    (by decide) (by decide) (by decide) (by decide)
  exact ⟨h.1, h.2 (by decide)⟩

/-- C4 counterexample: a reachable state with two `GenerationOutput` rows for
the same (generationId, task id) pair — one success callback whose payload
carries two result URLs creates one row per URL, violating "at most one
output row per (generationId, external task id) pair". -/
theorem C4_counterexample :
    outputRows
      (handleKieCallback ⟨[⟨"g2", .processing, ["t1", "t2"], 2, 0, none, none, none⟩], [], []⟩
        "t1" .success [.ok "k1", .ok "k2"] none 7)
      "g2" "t1" = 2 := by decide

/-- C4 amended: duplicate delivery is deduplicated — a second reconciliation
for the same task id with the identical success payload is a no-op as soon as
the first stored at least one output, so two identical calls whose payload
stores exactly one output leave exactly one row for the pair; but within a
single success call one row is created per fetched URL, so the at-most-one-
row-per-pair invariant holds only when each success payload stores at most
one output. -/
theorem C4_amended_dedup_by_first_output :
    ∀ (g : Generation) (outs : List GenerationOutput) (logs : List JobLogEntry)
      (t : String) (fs : List FetchOutcome) (fm fm' : Option String) (now now' : Nat),
      t ∈ g.kieTaskIds →
      (outs.any fun o => o.generationId == g.id && o.kieTaskId == t) = false →
      (storedOutputs g.id t fs).length = 1 →
      handleKieCallback (handleKieCallback ⟨[g], outs, logs⟩ t .success fs fm now)
          t .success fs fm' now' =
        handleKieCallback ⟨[g], outs, logs⟩ t .success fs fm now ∧
      outputRows (handleKieCallback (handleKieCallback ⟨[g], outs, logs⟩ t .success fs fm now)
          t .success fs fm' now') g.id t = 1 := by
  intro g outs logs t fs fm fm' now now' ht hfresh hone
  have hpair : ((outs ++ storedOutputs g.id t fs).any
      fun o => o.generationId == g.id && o.kieTaskId == t) = true := by
    rw [List.any_append, storedOutputs_any_pair g.id t fs
      (by intro hnil; rw [hnil] at hone; cases hone)]
    simp
  have hcnt : ((outs ++ storedOutputs g.id t fs).countP
      fun o => o.generationId == g.id && o.kieTaskId == t) = 1 := by
    rw [List.countP_append]
    have h0 : (outs.countP fun o => o.generationId == g.id && o.kieTaskId == t) = 0 :=
      List.countP_eq_zero.mpr (by
        intro o ho
        have := List.any_eq_false.mp hfresh o ho
        simpa using this)
    have h1 : ((storedOutputs g.id t fs).countP
        fun o => o.generationId == g.id && o.kieTaskId == t) =
        (storedOutputs g.id t fs).length :=
      List.countP_eq_length.mpr (fun o ho => by
        obtain ⟨ha, hb⟩ := mem_storedOutputs ho
        simp [ha, hb])
    rw [h0, h1, hone]
  by_cases hge : g.variationsTotal ≤ g.variationsDone + 1
  · rw [hkc_succ_step_fin g outs logs t fs fm now ht hfresh hge]
    constructor
    · exact hkc_dedup _ _ _ t .success fs fm' now' (by simpa using ht) (by simpa using hpair)
    · rw [hkc_dedup _ _ _ t .success fs fm' now' (by simpa using ht) (by simpa using hpair)]
      unfold outputRows
      exact hcnt
  · have hlt : g.variationsDone + 1 < g.variationsTotal := by omega
    rw [hkc_succ_step_lt g outs logs t fs fm now ht hfresh hlt]
    constructor
    · exact hkc_dedup _ _ _ t .success fs fm' now' (by simpa using ht) (by simpa using hpair)
    · rw [hkc_dedup _ _ _ t .success fs fm' now' (by simpa using ht) (by simpa using hpair)]
      unfold outputRows
      exact hcnt

/-- C4 amended witness: calling the reconciler twice with the identical
single-URL success payload leaves exactly one output row for the pair. -/
theorem C4_amended_dedup_by_first_output_witness :
    handleKieCallback
        (handleKieCallback ⟨[⟨"g1", .processing, ["t1", "t2"], 2, 0, none, none, none⟩], [], []⟩
          "t1" .success [.ok "k1"] none 5)
        "t1" .success [.ok "k1"] none 6 =
      handleKieCallback ⟨[⟨"g1", .processing, ["t1", "t2"], 2, 0, none, none, none⟩], [], []⟩
        "t1" .success [.ok "k1"] none 5 ∧
    outputRows
      (handleKieCallback
        (handleKieCallback ⟨[⟨"g1", .processing, ["t1", "t2"], 2, 0, none, none, none⟩], [], []⟩
          "t1" .success [.ok "k1"] none 5)
        "t1" .success [.ok "k1"] none 6) "g1" "t1" = 1 :=
  C4_amended_dedup_by_first_output
    ⟨"g1", .processing, ["t1", "t2"], 2, 0, none, none, none⟩ [] []
    "t1" [.ok "k1"] none none 5 6 (by decide) (by decide) (by decide)

/-- C1 counterexample: in the submission phase the worker submits every
provider task BEFORE the single update that persists the task-id list, so
there is a worker state (right after the first `kieCreateTask` returns) in
which a submitted task's id is not yet in the persisted `kieTaskIds` list —
refuting "at no point does a submitted task exist whose id has not yet been
persisted to the Generation row". -/
theorem C1_counterexample :
    ¬ (∀ st ∈ workerStates ⟨[⟨"g1", .queued, [], 2, 0, none, none, none⟩], [], []⟩
        "g1" ["t1", "t2"] 2 0, submittedPersisted "g1" st = true) := by decide

/-- The submission phase, unfolded: mark processing, append one
`kie.submitted` log row per task, then persist the ids and counters. -/
theorem workerFinal_def (db0 : DB) (gid : String) (tids : List String) (v now : Nat) :
    workerFinal db0 gid tids v now =
      ⟨persistTaskIds
          { markProcessing db0 gid now with
            jobLogs := (markProcessing db0 gid now).jobLogs ++
              tids.map (fun _ => ⟨gid, "kie.submitted"⟩) } gid tids v,
        tids⟩ := by
  show (⟨persistTaskIds
      (tids.foldl (fun st tid => submitTask st gid tid) ⟨markProcessing db0 gid now, []⟩).db
      gid tids v,
    (tids.foldl (fun st tid => submitTask st gid tid)
      ⟨markProcessing db0 gid now, []⟩).submitted⟩ : WorkerState) = _
  rw [foldl_submitTask]
  rfl

/-- C1 amended: the task-id list, `variationsTotal` and the reset of
`variationsDone` to 0 are persisted in one update after the submission loop
and before the polling loop begins — so at the final submission-phase state
(an element of the worker trace) every submitted task id is in the persisted
list and the counters are set; the guarantee does not hold between an
individual submission and that update. -/
theorem C1_amended_persist_before_polling :
    ∀ (db0 : DB) (gid : String) (tids : List String) (v : Nat) (now : Nat) (g0 : Generation),
      findGen db0 gid = some g0 →
      (workerFinal db0 gid tids v now).submitted = tids ∧
      workerFinal db0 gid tids v now ∈ workerStates db0 gid tids v now ∧
      submittedPersisted gid (workerFinal db0 gid tids v now) = true ∧
      ∃ g', findGen (workerFinal db0 gid tids v now).db gid = some g' ∧
        g'.kieTaskIds = tids ∧ g'.variationsTotal = v ∧ g'.variationsDone = 0 := by
  intro db0 gid tids v now g0 hfind
  have hid : g0.id = gid := by
    have h := hfind
    unfold findGen at h
    have h2 := List.find?_some h
    simpa using h2
  have hsub : (workerFinal db0 gid tids v now).submitted = tids := by
    rw [workerFinal_def]
  have hfind1 : findGen (markProcessing db0 gid now) gid =
      some { g0 with status := GenStatus.processing, startedAt := some now } := by
    show findGen (updateGen db0 gid
      fun g => { g with status := GenStatus.processing, startedAt := some now }) gid = _
    rw [findGen_updateGen db0 gid gid
      (fun g => { g with status := GenStatus.processing, startedAt := some now })
      (fun g => rfl), hfind]
    simp [hid]
  have hfind2 : findGen (workerFinal db0 gid tids v now).db gid =
      some { g0 with status := GenStatus.processing, startedAt := some now,
                     kieTaskIds := tids, variationsTotal := v, variationsDone := 0 } := by
    rw [workerFinal_def]
    show findGen (persistTaskIds _ gid tids v) gid = _
    unfold persistTaskIds
    rw [findGen_updateGen _ gid gid
      (fun g => { g with kieTaskIds := tids, variationsTotal := v, variationsDone := 0 })
      (fun g => rfl)]
    have hfg : findGen
        { markProcessing db0 gid now with
          jobLogs := (markProcessing db0 gid now).jobLogs ++
            tids.map (fun _ => ⟨gid, "kie.submitted"⟩) } gid =
        findGen (markProcessing db0 gid now) gid := rfl
    rw [hfg, hfind1]
    simp [hid]
  refine ⟨hsub, ?_, ?_, ?_⟩
  · unfold workerStates
    exact List.mem_append_right _ (by simp)
  · unfold submittedPersisted
    rw [hsub, hfind2]
    rw [List.all_eq_true]
    intro t htm
    simpa using htm
  · exact ⟨_, hfind2, rfl, rfl, rfl⟩

/-- C1 amended witness: the amended guarantee evaluated on a concrete
two-variation worker run. -/
theorem C1_amended_persist_before_polling_witness :
    (workerFinal ⟨[⟨"g1", .queued, [], 2, 0, none, none, none⟩], [], []⟩
      "g1" ["t1", "t2"] 2 0).submitted = ["t1", "t2"] ∧
    workerFinal ⟨[⟨"g1", .queued, [], 2, 0, none, none, none⟩], [], []⟩
        "g1" ["t1", "t2"] 2 0 ∈
      workerStates ⟨[⟨"g1", .queued, [], 2, 0, none, none, none⟩], [], []⟩
        "g1" ["t1", "t2"] 2 0 ∧
    submittedPersisted "g1"
      (workerFinal ⟨[⟨"g1", .queued, [], 2, 0, none, none, none⟩], [], []⟩
        "g1" ["t1", "t2"] 2 0) = true ∧
    ∃ g', findGen (workerFinal ⟨[⟨"g1", .queued, [], 2, 0, none, none, none⟩], [], []⟩
        "g1" ["t1", "t2"] 2 0).db "g1" = some g' ∧
      g'.kieTaskIds = ["t1", "t2"] ∧ g'.variationsTotal = 2 ∧ g'.variationsDone = 0 :=
  C1_amended_persist_before_polling
    ⟨[⟨"g1", .queued, [], 2, 0, none, none, none⟩], [], []⟩ "g1" ["t1", "t2"] 2 0
    ⟨"g1", .queued, [], 2, 0, none, none, none⟩ (by decide)

/-- C5: for a generation with `variationsTotal = N` over N distinct task ids
receiving exactly one terminal reconciliation per task (any interleaving,
each success storing exactly one output): the final status is `completed`
when at least one variation succeeded and `failed` when all failed,
`completedAt` is stamped in both cases, and the output count for the
generation equals the number of successes. -/
theorem C5_best_effort_final_status :
    ∀ (g : Generation) (outs : List GenerationOutput) (logs : List JobLogEntry)
      (calls : List ReconcileCall) (now : Nat),
      calls ≠ [] →
      List.Perm (calls.map (fun c => c.taskId)) g.kieTaskIds →
      g.kieTaskIds.Nodup →
      g.variationsTotal = g.kieTaskIds.length →
      g.variationsDone = 0 →
      (∀ o ∈ outs, o.generationId ≠ g.id) →
      (∀ c ∈ calls, c.state = KieState.success →
        (storedOutputs g.id c.taskId c.fetches).length = 1) →
      ∃ fr,
        runCalls ⟨[g], outs, logs⟩ calls now =
          ⟨[{ g with variationsDone := g.variationsTotal,
                     failureReason := fr,
                     status := if 0 < succCount calls then .completed else .failed,
                     completedAt := some now }],
            outs ++ createdOutputs g.id calls, logs ++ callLogs g.id calls⟩ ∧
        ((runCalls ⟨[g], outs, logs⟩ calls now).outputs.countP
            (fun o => o.generationId == g.id)) = succCount calls := by
  intro g outs logs calls now hne hperm hnd htot hdone houts hone
  have hmem : ∀ c ∈ calls, c.taskId ∈ g.kieTaskIds := fun c hc =>
    hperm.subset (List.mem_map_of_mem _ hc)
  have hnodup : (calls.map (fun c => c.taskId)).Nodup := hperm.nodup_iff.mpr hnd
  have hfresh : ∀ c ∈ calls,
      (outs.any fun o => o.generationId == g.id && o.kieTaskId == c.taskId) = false :=
    fun c _ => List.any_eq_false.mpr (fun o ho => by simp [houts o ho])
  have heq : g.variationsDone + calls.length = g.variationsTotal := by
    have hl := hperm.length_eq
    rw [List.length_map] at hl
    omega
  obtain ⟨fr, hrun⟩ := runCalls_fin now calls g outs logs hne hmem hnodup hfresh heq
  have hcnt : ((outs ++ createdOutputs g.id calls).countP
      (fun o => o.generationId == g.id)) = succCount calls := by
    rw [List.countP_append, createdOutputs_countP, createdOutputs_length g.id calls hone,
      List.countP_eq_zero.mpr (fun o ho => by simp [houts o ho])]
    omega
  have hstatus : finalStatus g.id (outs ++ createdOutputs g.id calls) calls =
      (if 0 < succCount calls then GenStatus.completed else GenStatus.failed) := by
    unfold finalStatus
    cases hl : lastCallState calls with
    | success => rw [if_pos (succCount_pos_of_lastSuccess calls hne hl)]
    | fail => rw [hcnt]
  refine ⟨fr, ?_, ?_⟩
  · rw [hrun, hstatus]
  · rw [hrun]
    exact hcnt

/-- C5 witness: a two-variation generation where task `"t1"` succeeds with one
stored output and task `"t2"` fails ends `completed` with one output. -/
theorem C5_best_effort_final_status_witness :
    ∃ fr,
      runCalls ⟨[⟨"g1", .processing, ["t1", "t2"], 2, 0, none, some 1, none⟩], [], []⟩
          [⟨"t1", .success, [.ok "k1"], none⟩, ⟨"t2", .fail, [], some "boom"⟩] 9 =
        ⟨[{ (⟨"g1", .processing, ["t1", "t2"], 2, 0, none, some 1, none⟩ : Generation) with
              variationsDone := 2,
              failureReason := fr,
              status := if 0 < succCount [⟨"t1", .success, [.ok "k1"], none⟩,
                  ⟨"t2", .fail, [], some "boom"⟩] then .completed else .failed,
              completedAt := some 9 }],
          [] ++ createdOutputs "g1" [⟨"t1", .success, [.ok "k1"], none⟩,
            ⟨"t2", .fail, [], some "boom"⟩],
          [] ++ callLogs "g1" [⟨"t1", .success, [.ok "k1"], none⟩,
            ⟨"t2", .fail, [], some "boom"⟩]⟩ ∧
      ((runCalls ⟨[⟨"g1", .processing, ["t1", "t2"], 2, 0, none, some 1, none⟩], [], []⟩
          [⟨"t1", .success, [.ok "k1"], none⟩, ⟨"t2", .fail, [], some "boom"⟩] 9).outputs.countP
        (fun o => o.generationId == "g1")) =
        succCount [⟨"t1", .success, [.ok "k1"], none⟩, ⟨"t2", .fail, [], some "boom"⟩] :=
  C5_best_effort_final_status
    ⟨"g1", .processing, ["t1", "t2"], 2, 0, none, some 1, none⟩ [] []
    [⟨"t1", .success, [.ok "k1"], none⟩, ⟨"t2", .fail, [], some "boom"⟩] 9
    (by decide) (by decide) (by decide) (by decide) (by decide) (by decide) (by decide)

/-- C2 counterexample: a repeated failure reconciliation for the same task id
is NOT a no-op. The output-existence idempotency guard never fires for a
failed task (failures create no output row), so a duplicate fail callback
increments `variationsDone` again, overwrites `failureReason`, appends
another job-log row and re-stamps the finalization — the database changes. -/
theorem C2_counterexample :
    handleKieCallback
        (handleKieCallback ⟨[⟨"g1", .processing, ["t1"], 1, 0, none, none, none⟩], [], []⟩
          "t1" .fail [] none 5)
        "t1" .fail [] none 5 ≠
      handleKieCallback ⟨[⟨"g1", .processing, ["t1"], 1, 0, none, none, none⟩], [], []⟩
        "t1" .fail [] none 5 := by decide

/-- C2 amended: for a generation with `variationsTotal = N` and N distinct
task ids, after N reconciliations (one per task id, success or failure, any
interleaving) the generation reaches a terminal status exactly once — the
status is still `processing` after every proper prefix of the run and
terminal (`completed` or `failed`, with `completedAt` stamped) after the Nth;
further reconciliations are no-ops only for task ids that stored at least one
output row (for a failed task id a duplicate failure callback re-increments
the counter, as the counterexample shows). -/
theorem C2_amended_terminal_once_dedup_requires_output :
    ∀ (g : Generation) (outs : List GenerationOutput) (logs : List JobLogEntry)
      (calls : List ReconcileCall) (now : Nat),
      calls ≠ [] →
      List.Perm (calls.map (fun c => c.taskId)) g.kieTaskIds →
      g.kieTaskIds.Nodup →
      g.variationsTotal = g.kieTaskIds.length →
      g.variationsDone = 0 →
      g.status = GenStatus.processing →
      (∀ o ∈ outs, o.generationId ≠ g.id) →
      (∃ g', runCalls ⟨[g], outs, logs⟩ calls now =
          ⟨[g'], outs ++ createdOutputs g.id calls, logs ++ callLogs g.id calls⟩ ∧
        (g'.status = GenStatus.completed ∨ g'.status = GenStatus.failed) ∧
        g'.completedAt = some now) ∧
      (∀ k < calls.length, ∃ g'',
        (runCalls ⟨[g], outs, logs⟩ (calls.take k) now).generations = [g''] ∧
        g''.status = GenStatus.processing ∧ g''.completedAt = g.completedAt) ∧
      (∀ (t : String) (st : KieState) (fs : List FetchOutcome) (fm : Option String)
          (now₂ : Nat),
        ((runCalls ⟨[g], outs, logs⟩ calls now).outputs.any
          fun o => o.generationId == g.id && o.kieTaskId == t) = true →
        handleKieCallback (runCalls ⟨[g], outs, logs⟩ calls now) t st fs fm now₂ =
          runCalls ⟨[g], outs, logs⟩ calls now) := by
  intro g outs logs calls now hne hperm hnd htot hdone hstat houts
  have hmem : ∀ c ∈ calls, c.taskId ∈ g.kieTaskIds := fun c hc =>
    hperm.subset (List.mem_map_of_mem _ hc)
  have hnodup : (calls.map (fun c => c.taskId)).Nodup := hperm.nodup_iff.mpr hnd
  have hfresh : ∀ c ∈ calls,
      (outs.any fun o => o.generationId == g.id && o.kieTaskId == c.taskId) = false :=
    fun c _ => List.any_eq_false.mpr (fun o ho => by simp [houts o ho])
  have heq : g.variationsDone + calls.length = g.variationsTotal := by
    have hl := hperm.length_eq
    rw [List.length_map] at hl
    omega
  obtain ⟨fr, hrun⟩ := runCalls_fin now calls g outs logs hne hmem hnodup hfresh heq
  refine ⟨?_, ?_, ?_⟩
  · refine ⟨_, hrun, ?_, rfl⟩
    show (finalStatus g.id (outs ++ createdOutputs g.id calls) calls = GenStatus.completed ∨
      finalStatus g.id (outs ++ createdOutputs g.id calls) calls = GenStatus.failed)
    unfold finalStatus
    cases lastCallState calls with
    | success => exact Or.inl rfl
    | fail =>
      by_cases hpos :
          0 < (outs ++ createdOutputs g.id calls).countP (fun o => o.generationId == g.id)
      · rw [if_pos hpos]; exact Or.inl rfl
      · rw [if_neg hpos]; exact Or.inr rfl
  · intro k hk
    have hlen : ((calls.take k).length) = k := by
      rw [List.length_take]
      omega
    obtain ⟨fr', hrun'⟩ := runCalls_nf now (calls.take k) g outs logs
      (fun c hc => hmem c (List.take_subset _ _ hc))
      (by
        rw [List.map_take]
        exact List.Nodup.sublist (List.take_sublist _ _) hnodup)
      (fun c hc => hfresh c (List.take_subset _ _ hc))
      (by rw [hlen]; omega)
    exact Exists.intro
      { g with variationsDone := g.variationsDone + (calls.take k).length, failureReason := fr' }
      ⟨by rw [hrun'], by simpa using hstat, rfl⟩
  · intro t st fs fm now₂ hany
    rw [hrun] at hany ⊢
    by_cases htin : t ∈ g.kieTaskIds
    · exact hkc_dedup _ _ _ t st fs fm now₂ (by simpa using htin) (by simpa using hany)
    · refine hkc_unknown _ t st fs fm now₂ ?_
      intro x hx
      rw [List.mem_singleton] at hx
      subst hx
      simpa using htin

/-- C2 amended witness: the amended statement evaluated on a single-variation
generation whose one task succeeds. -/
theorem C2_amended_terminal_once_dedup_requires_output_witness :
    (∃ g', runCalls ⟨[⟨"g1", .processing, ["t1"], 1, 0, none, none, none⟩], [], []⟩
        [⟨"t1", .success, [.ok "k1"], none⟩] 7 =
        ⟨[g'], [] ++ createdOutputs "g1" [⟨"t1", .success, [.ok "k1"], none⟩],
          [] ++ callLogs "g1" [⟨"t1", .success, [.ok "k1"], none⟩]⟩ ∧
      (g'.status = GenStatus.completed ∨ g'.status = GenStatus.failed) ∧
      g'.completedAt = some 7) ∧
    (∀ k < ([⟨"t1", .success, [.ok "k1"], none⟩] : List ReconcileCall).length, ∃ g'',
      (runCalls ⟨[⟨"g1", .processing, ["t1"], 1, 0, none, none, none⟩], [], []⟩
        (([⟨"t1", .success, [.ok "k1"], none⟩] : List ReconcileCall).take k) 7).generations =
        [g''] ∧
      g''.status = GenStatus.processing ∧ g''.completedAt = none) ∧
    (∀ (t : String) (st : KieState) (fs : List FetchOutcome) (fm : Option String)
        (now₂ : Nat),
      ((runCalls ⟨[⟨"g1", .processing, ["t1"], 1, 0, none, none, none⟩], [], []⟩
        [⟨"t1", .success, [.ok "k1"], none⟩] 7).outputs.any
        fun o => o.generationId == "g1" && o.kieTaskId == t) = true →
      handleKieCallback
          (runCalls ⟨[⟨"g1", .processing, ["t1"], 1, 0, none, none, none⟩], [], []⟩
            [⟨"t1", .success, [.ok "k1"], none⟩] 7) t st fs fm now₂ =
        runCalls ⟨[⟨"g1", .processing, ["t1"], 1, 0, none, none, none⟩], [], []⟩
          [⟨"t1", .success, [.ok "k1"], none⟩] 7) :=
  C2_amended_terminal_once_dedup_requires_output
    ⟨"g1", .processing, ["t1"], 1, 0, none, none, none⟩ [] []
    [⟨"t1", .success, [.ok "k1"], none⟩] 7
    (by decide) (by decide) (by decide) (by decide) (by decide) (by decide) (by decide)

/-- C3 counterexample: `variationsDone` CAN exceed `variationsTotal`. Two
failure reconciliations for the same task id of a single-variation generation
(duplicate delivery, which the at-least-once webhook/polling model allows)
leave `variationsDone = 2` with `variationsTotal = 1`, because the
output-existence idempotency guard never fires for failed tasks. -/
theorem C3_counterexample :
    ((findGen
        (handleKieCallback
          (handleKieCallback ⟨[⟨"g1", .processing, ["t1"], 1, 0, none, none, none⟩], [], []⟩
            "t1" .fail [] none 5)
          "t1" .fail [] none 6)
        "g1").map fun g => (g.variationsDone, g.variationsTotal)) = some (2, 1) := by decide

/-- C3 amended: under reconciler sequences that deliver at most one terminal
callback per task id (distinct task ids drawn from the generation's list),
`variationsDone` equals the number of processed callbacks — hence it is
monotonically non-decreasing along the run and never exceeds
`variationsTotal`; duplicate failure callbacks break the bound, as the
counterexample shows. The Worker's reset to 0 before polling is the
persisted starting point (`variationsDone = 0`). -/
theorem C3_amended_counter_monotone_bounded :
    ∀ (g : Generation) (outs : List GenerationOutput) (logs : List JobLogEntry)
      (calls : List ReconcileCall) (now : Nat),
      (calls.map (fun c => c.taskId)).Nodup →
      (∀ c ∈ calls, c.taskId ∈ g.kieTaskIds) →
      g.kieTaskIds.Nodup →
      g.variationsTotal = g.kieTaskIds.length →
      g.variationsDone = 0 →
      (∀ o ∈ outs, o.generationId ≠ g.id) →
      ∀ k ≤ calls.length, ∃ g',
        (runCalls ⟨[g], outs, logs⟩ (calls.take k) now).generations = [g'] ∧
        g'.variationsDone = k ∧
        g'.variationsTotal = g.variationsTotal ∧
        g'.variationsDone ≤ g'.variationsTotal := by
  intro g outs logs calls now hnodup hmem hnd htot hdone houts k hk
  have hsubset : (calls.map fun c => c.taskId) ⊆ g.kieTaskIds := by
    intro x hx
    obtain ⟨c, hc, rfl⟩ := List.mem_map.mp hx
    exact hmem c hc
  have hlen : calls.length ≤ g.variationsTotal := by
    have h1 := (List.subperm_of_subset hnodup hsubset).length_le
    rw [List.length_map] at h1
    omega
  have hfresh : ∀ c ∈ calls,
      (outs.any fun o => o.generationId == g.id && o.kieTaskId == c.taskId) = false :=
    fun c _ => List.any_eq_false.mpr (fun o ho => by simp [houts o ho])
  have hlentake : (calls.take k).length = k := by
    rw [List.length_take]; omega
  by_cases hk0 : k = 0
  · subst hk0
    exact ⟨g, by rw [List.take_zero]; rfl, hdone, rfl, by omega⟩
  · by_cases hklt : k < g.variationsTotal
    · obtain ⟨fr', hrun'⟩ := runCalls_nf now (calls.take k) g outs logs
        (fun c hc => hmem c (List.take_subset _ _ hc))
        (by rw [List.map_take]; exact List.Nodup.sublist (List.take_sublist _ _) hnodup)
        (fun c hc => hfresh c (List.take_subset _ _ hc))
        (by rw [hlentake]; omega)
      refine Exists.intro
        { g with variationsDone := g.variationsDone + (calls.take k).length, failureReason := fr' }
        ⟨by rw [hrun'], ?_, rfl, ?_⟩
      · show g.variationsDone + (calls.take k).length = k
        omega
      · show g.variationsDone + (calls.take k).length ≤ g.variationsTotal
        omega
    · have hkeq : k = g.variationsTotal := by omega
      have hkcalls : k = calls.length := by omega
      have htake : calls.take k = calls := by
        rw [hkcalls]
        simp
      obtain ⟨fr', hrun'⟩ := runCalls_fin now calls g outs logs
        (by intro hnil; rw [hnil] at hkcalls; simp at hkcalls; exact hk0 hkcalls)
        hmem hnodup hfresh (by omega)
      rw [htake]
      refine Exists.intro
        { g with variationsDone := g.variationsTotal, failureReason := fr',
                 status := finalStatus g.id (outs ++ createdOutputs g.id calls) calls,
                 completedAt := some now }
        ⟨by rw [hrun'], ?_, rfl, ?_⟩
      · show g.variationsTotal = k
        omega
      · show g.variationsTotal ≤ g.variationsTotal
        omega

/-- C3 amended witness: after both callbacks of a concrete two-variation run
the counter is 2 and does not exceed the total. -/
theorem C3_amended_counter_monotone_bounded_witness :
    ∃ g',
      (runCalls ⟨[⟨"g1", .processing, ["t1", "t2"], 2, 0, none, none, none⟩], [], []⟩
        (([⟨"t1", .success, [.ok "k1"], none⟩, ⟨"t2", .fail, [], some "e"⟩] :
          List ReconcileCall).take 2) 4).generations = [g'] ∧
      g'.variationsDone = 2 ∧
      g'.variationsTotal =
        (⟨"g1", .processing, ["t1", "t2"], 2, 0, none, none, none⟩ : Generation).variationsTotal ∧
      g'.variationsDone ≤ g'.variationsTotal :=
  C3_amended_counter_monotone_bounded
    ⟨"g1", .processing, ["t1", "t2"], 2, 0, none, none, none⟩ [] []
    [⟨"t1", .success, [.ok "k1"], none⟩, ⟨"t2", .fail, [], some "e"⟩] 4
    (by decide) (by decide) (by decide) (by decide) (by decide) (by decide)
    2 (by decide)

end ImageComposer
